import Mathlib

/-!
Verification of the red-tomato pomodoro timer.

The development shallowly embeds the timer engine (`src/pomodoro.rs`), the
history-store query (`src/db.rs`) and the cumulative-tomato view
(`src/app.rs`) as pure Lean functions.  Timestamps (`DateTime<Utc>` at
whole-second granularity, as used by `num_seconds`) are modelled as `Int`
seconds; Rust's `u32` counters are modelled as `Nat` (the engine never
approaches the wrap-around point under the configurations the claims
consider); mutation of `&mut self` becomes state-passing.

Operations that call `Utc::now()` inside the engine (`start`, and the
resume arm of `toggle_pause`) take that ambient sample as an explicit
`clk` argument, distinct from the caller-supplied `now` of `tick`.
-/

namespace RedTomato

/-- Phase of the pomodoro cycle (`Phase` in src/pomodoro.rs). -/
inductive Phase where
  | Focus
  | ShortBreak
  | LongBreak
deriving DecidableEq, Repr

/-- Timer state (`TimerState` in src/pomodoro.rs). -/
inductive TimerState where
  | Running
  | Paused
  | Idle
deriving DecidableEq, Repr

/-- Configuration, in seconds (`PomodoroConfig` in src/pomodoro.rs). -/
structure PomodoroConfig where
  focus_secs : Int
  short_break_secs : Int
  long_break_secs : Int
  pomodoros_before_long : Nat
deriving DecidableEq, Repr

/-- `PomodoroConfig::default`: focus 25 min, short break 5 min, long break
15 min, long break after 4 pomodoros. -/
def PomodoroConfig.default : PomodoroConfig where
  focus_secs := 60 * 25
  short_break_secs := 60 * 5
  long_break_secs := 15 * 60
  pomodoros_before_long := 4

/-- Core engine state (`PomodoroState` in src/pomodoro.rs). -/
structure PomodoroState where
  config : PomodoroConfig
  phase : Phase
  state : TimerState
  remaining_secs : Int
  phase_total_secs : Int
  completed_pomodoros : Nat
  last_tick_at : Option Int
  finished_phase : Option Phase
  last_completed_focus_duration_secs : Option Int
deriving DecidableEq, Repr

/-- `PomodoroState::default`. -/
def PomodoroState.default : PomodoroState where
  config := PomodoroConfig.default
  phase := Phase.Focus
  state := TimerState.Idle
  remaining_secs := 0
  phase_total_secs := 0
  completed_pomodoros := 0
  last_tick_at := none
  finished_phase := none
  last_completed_focus_duration_secs := none

namespace PomodoroState

/-- `PomodoroState::start`.  `clk` is the engine's internal `Utc::now()`
sample (line 99 of src/pomodoro.rs), not a caller-supplied timestamp. -/
def start (clk : Int) (s : PomodoroState) : PomodoroState :=
  let total :=
    match s.phase with
    | Phase.Focus => s.config.focus_secs
    | Phase.ShortBreak => s.config.short_break_secs
    | Phase.LongBreak => s.config.long_break_secs
  { s with
    phase_total_secs := total
    remaining_secs := total
    state := TimerState.Running
    last_tick_at := some clk }

/-- `PomodoroState::toggle_pause`.  `clk` is the internal `Utc::now()`
sample taken when resuming from `Paused` (line 111 of src/pomodoro.rs). -/
def toggle_pause (clk : Int) (s : PomodoroState) : PomodoroState :=
  match s.state with
  | TimerState.Running =>
      { s with state := TimerState.Paused, last_tick_at := none }
  | TimerState.Paused =>
      { s with state := TimerState.Running, last_tick_at := some clk }
  | TimerState.Idle => s

/-- `PomodoroState::stop`. -/
def stop (s : PomodoroState) : PomodoroState :=
  { s with
    state := TimerState.Idle
    remaining_secs := 0
    phase_total_secs := 0
    last_tick_at := none }

/-- `PomodoroState::reset_pomodoros_and_stop`. -/
def reset_pomodoros_and_stop (s : PomodoroState) : PomodoroState :=
  stop { s with completed_pomodoros := 0, phase := Phase.Focus }

/-- `PomodoroState::set_phase`. -/
def set_phase (p : Phase) (s : PomodoroState) : PomodoroState :=
  stop { s with phase := p }

/-- `PomodoroState::on_phase_finished` (private completion algorithm). -/
def on_phase_finished (s : PomodoroState) : PomodoroState :=
  let just_finished := s.phase
  let total_secs := s.phase_total_secs
  let s1 : PomodoroState :=
    { s with
      finished_phase := some just_finished
      state := TimerState.Idle
      remaining_secs := 0
      phase_total_secs := 0
      last_tick_at := none }
  let s2 : PomodoroState :=
    if just_finished = Phase.Focus then
      { s1 with last_completed_focus_duration_secs := some total_secs }
    else s1
  match s2.phase with
  | Phase.Focus =>
      let c := s2.completed_pomodoros + 1
      if s2.config.pomodoros_before_long ≤ c then
        { s2 with phase := Phase.LongBreak, completed_pomodoros := 0 }
      else
        { s2 with phase := Phase.ShortBreak, completed_pomodoros := c }
  | Phase.ShortBreak =>
      { s2 with phase := Phase.Focus }
  | Phase.LongBreak =>
      { s2 with phase := Phase.Focus }

/-- `PomodoroState::tick`.  `now` is the caller-supplied timestamp;
`(now - last).num_seconds()` becomes exact `Int` subtraction at the
whole-second granularity of the model. -/
def tick (now : Int) (s : PomodoroState) : PomodoroState :=
  if s.state ≠ TimerState.Running then s
  else
    match s.last_tick_at with
    | none => s
    | some last =>
        let elapsed := now - last
        if elapsed ≤ 0 then s
        else
          let s1 : PomodoroState :=
            { s with
              last_tick_at := some now
              remaining_secs := max (s.remaining_secs - elapsed) 0 }
          if s1.remaining_secs ≤ 0 then on_phase_finished s1 else s1

/-- `PomodoroState::take_finished_phase`: `Option::take` returns the staged
value and leaves `None` behind. -/
def take_finished_phase (s : PomodoroState) : Option Phase × PomodoroState :=
  (s.finished_phase, { s with finished_phase := none })

/-- `PomodoroState::take_last_completed_focus_duration`. -/
def take_last_completed_focus_duration (s : PomodoroState) :
    Option Int × PomodoroState :=
  (s.last_completed_focus_duration_secs,
   { s with last_completed_focus_duration_secs := none })

end PomodoroState

/-- One command of the engine's host-facing surface.  `start` and
`toggle_pause` carry the ambient clock value the Rust code samples with
`Utc::now()`; `tick` carries the caller-supplied timestamp. -/
inductive Op where
  | start (clk : Int)
  | toggle_pause (clk : Int)
  | stop
  | reset_pomodoros_and_stop
  | set_phase (p : Phase)
  | tick (now : Int)
deriving DecidableEq, Repr

/-- Apply one command to the engine state. -/
def applyOp (s : PomodoroState) : Op → PomodoroState
  | Op.start clk => PomodoroState.start clk s
  | Op.toggle_pause clk => PomodoroState.toggle_pause clk s
  | Op.stop => PomodoroState.stop s
  | Op.reset_pomodoros_and_stop => PomodoroState.reset_pomodoros_and_stop s
  | Op.set_phase p => PomodoroState.set_phase p s
  | Op.tick now => PomodoroState.tick now s

/-- Run a sequence of commands from a state. -/
def run (s : PomodoroState) (ops : List Op) : PomodoroState :=
  ops.foldl applyOp s

/-- Two commands agree on everything the caller supplies: same constructor,
same phase argument, same `tick` timestamp.  The ambient clock samples of
`start` and `toggle_pause` are internal to the engine and are NOT compared. -/
def sameSupplied : Op → Op → Bool
  | Op.start _, Op.start _ => true
  | Op.toggle_pause _, Op.toggle_pause _ => true
  | Op.stop, Op.stop => true
  | Op.reset_pomodoros_and_stop, Op.reset_pomodoros_and_stop => true
  | Op.set_phase p, Op.set_phase q => p = q
  | Op.tick n, Op.tick m => n = m
  | _, _ => false

/-- Commands whose Rust implementation samples `Utc::now()` internally. -/
def usesAmbientClock : Op → Bool
  | Op.start _ => true
  | Op.toggle_pause _ => true
  | _ => false

/-- Run `tick` over a whole sequence of timestamps. -/
def tickSeq (s : PomodoroState) (ts : List Int) : PomodoroState :=
  ts.foldl (fun st t => PomodoroState.tick t st) s

/-- Cached focus-history entry (`FocusRecord` in src/app.rs). -/
structure FocusRecord where
  task : String
  duration_secs : Int
  completed_at : String
  completed_pomodoros : Nat
deriving DecidableEq, Repr

/-- The per-record tomato contribution used by the cumulative pass:
`if r.completed_pomodoros == 0 { 1 } else { r.completed_pomodoros }`. -/
def tomato_add (r : FocusRecord) : Nat :=
  if r.completed_pomodoros = 0 then 1 else r.completed_pomodoros

/-- The ascending accumulation loop of
`focus_rows_sorted_with_cumulative_tomatoes`: walk the list in order,
keeping one running sum per exact task string (the Rust `HashMap` keyed by
`r.task.clone()`, modelled as a function `String → Nat` defaulting to 0),
and tag each record with the updated sum of its task. -/
def cumulative_pass : List FocusRecord → (String → Nat) → List (FocusRecord × Nat)
  | [], _ => []
  | r :: rest, sums =>
      let sum := sums r.task + tomato_add r
      (r, sum) :: cumulative_pass rest (fun t => if t = r.task then sum else sums t)

/-- Ascending comparison on `completed_at` (Rust `a.1.cmp(b.1)` on `&str`;
byte-lexicographic order agrees with Lean's `String` order). -/
def byTimeAsc (a b : FocusRecord) : Bool :=
  a.completed_at ≤ b.completed_at

/-- Descending comparison on the tagged rows
(`b.0.completed_at.cmp(&a.0.completed_at)`). -/
def byTimeDesc (a b : FocusRecord × Nat) : Bool :=
  b.1.completed_at ≤ a.1.completed_at

/-- `RedTomatoApp::focus_rows_sorted_with_cumulative_tomatoes`
(src/app.rs): sort ascending by `completed_at` (Rust `sort_by` is stable,
as is `List.mergeSort`), run the cumulative pass from empty sums, then
sort the tagged rows descending by `completed_at`. -/
def focus_rows_sorted_with_cumulative_tomatoes (history : List FocusRecord) :
    List (FocusRecord × Nat) :=
  let list := history.mergeSort byTimeAsc
  let with_sum := cumulative_pass list (fun _ => 0)
  with_sum.mergeSort byTimeDesc

/-- One stored row of the `focus_records` table (`FocusRow` in src/db.rs). -/
structure FocusRow where
  id : Int
  task : String
  duration_secs : Int
  completed_at : String
  completed_pomodoros : Nat
deriving DecidableEq, Repr

/-- Descending comparison on stored rows (`ORDER BY completed_at DESC`). -/
def rowTimeDesc (a b : FocusRow) : Bool :=
  b.completed_at ≤ a.completed_at

/-- `load_focus_records` (src/db.rs): the stored table is modelled as the
list of its rows; `ORDER BY completed_at DESC LIMIT ?1` becomes a
descending sort followed by `take`, and the Rust code substitutes
`1_000_000` for the `limit = 0` sentinel. -/
def load_focus_records (records : List FocusRow) (limit : Nat) : List FocusRow :=
  let limit_val : Nat := if 0 < limit then limit else 1000000
  (records.mergeSort rowTimeDesc).take limit_val

/-- Sum of tomato contributions of the records of task `t` in a list
(used to characterise the running sums of `cumulative_pass`). -/
def task_contrib_sum (l : List FocusRecord) (t : String) : Nat :=
  ((l.filter fun r => r.task = t).map tomato_add).sum

/-- One start-to-completion cycle of the current phase: `start`, then a
single `tick` landing exactly at the end of the phase. -/
def completeOnce (clk : Int) (s : PomodoroState) : PomodoroState :=
  let s1 := PomodoroState.start clk s
  PomodoroState.tick (clk + s1.phase_total_secs) s1

/-- Engine state after `n` complete phase cycles from the default state. -/
def cycleStates : Nat → PomodoroState
  | 0 => PomodoroState.default
  | n + 1 => completeOnce 0 (cycleStates n)

/-- The counter invariant of the completion rule. -/
def counter_inv (s : PomodoroState) : Prop :=
  s.completed_pomodoros < s.config.pomodoros_before_long

namespace PomodoroState

lemma tick_not_running (s : PomodoroState) (now : Int)
    (h : s.state ≠ TimerState.Running) : tick now s = s := by
  simp [tick, h]

lemma tick_nonpos (s : PomodoroState) (last now : Int)
    (hlast : s.last_tick_at = some last) (h : now - last ≤ 0) :
    tick now s = s := by
  unfold tick
  split
  · rfl
  · rw [hlast]
    simp [h]

lemma tick_progress (s : PomodoroState) (last now : Int)
    (hrun : s.state = TimerState.Running)
    (hlast : s.last_tick_at = some last)
    (hpos : 0 < now - last) (hlt : now - last < s.remaining_secs) :
    tick now s =
      { s with last_tick_at := some now,
               remaining_secs := s.remaining_secs - (now - last) } := by
  have h1 : max (s.remaining_secs - (now - last)) 0 = s.remaining_secs - (now - last) := by
    omega
  simp [tick, hrun, hlast, h1, show ¬ now - last ≤ 0 by omega,
    show ¬ s.remaining_secs - (now - last) ≤ 0 by omega]

lemma tick_complete (s : PomodoroState) (last now : Int)
    (hrun : s.state = TimerState.Running)
    (hlast : s.last_tick_at = some last)
    (hpos : 0 < now - last) (hge : s.remaining_secs ≤ now - last) :
    tick now s =
      on_phase_finished { s with last_tick_at := some now, remaining_secs := 0 } := by
  have h1 : max (s.remaining_secs - (now - last)) 0 = 0 := by omega
  simp [tick, hrun, hlast, h1, show ¬ now - last ≤ 0 by omega]

lemma on_phase_finished_focus (s : PomodoroState) (h : s.phase = Phase.Focus) :
    on_phase_finished s =
      if s.config.pomodoros_before_long ≤ s.completed_pomodoros + 1 then
        { s with
          finished_phase := some Phase.Focus
          state := TimerState.Idle
          remaining_secs := 0
          phase_total_secs := 0
          last_tick_at := none
          last_completed_focus_duration_secs := some s.phase_total_secs
          phase := Phase.LongBreak
          completed_pomodoros := 0 }
      else
        { s with
          finished_phase := some Phase.Focus
          state := TimerState.Idle
          remaining_secs := 0
          phase_total_secs := 0
          last_tick_at := none
          last_completed_focus_duration_secs := some s.phase_total_secs
          phase := Phase.ShortBreak
          completed_pomodoros := s.completed_pomodoros + 1 } := by
  simp [on_phase_finished, h]

lemma on_phase_finished_break (s : PomodoroState) (h : s.phase ≠ Phase.Focus) :
    on_phase_finished s =
      { s with
        finished_phase := some s.phase
        state := TimerState.Idle
        remaining_secs := 0
        phase_total_secs := 0
        last_tick_at := none
        phase := Phase.Focus } := by
  cases hp : s.phase
  · exact absurd hp h
  · simp [on_phase_finished, hp]
  · simp [on_phase_finished, hp]

lemma on_phase_finished_remaining_secs (s : PomodoroState) :
    (on_phase_finished s).remaining_secs = 0 := by
  by_cases h : s.phase = Phase.Focus
  · rw [on_phase_finished_focus s h]
    split <;> rfl
  · rw [on_phase_finished_break s h]

lemma on_phase_finished_state (s : PomodoroState) :
    (on_phase_finished s).state = TimerState.Idle := by
  by_cases h : s.phase = Phase.Focus
  · rw [on_phase_finished_focus s h]
    split <;> rfl
  · rw [on_phase_finished_break s h]

lemma on_phase_finished_finished_phase (s : PomodoroState) :
    (on_phase_finished s).finished_phase = some s.phase := by
  by_cases h : s.phase = Phase.Focus
  · rw [on_phase_finished_focus s h, h]
    split <;> rfl
  · rw [on_phase_finished_break s h]

lemma tick_remaining_bounds (s : PomodoroState) (now : Int)
    (h : 0 ≤ s.remaining_secs) :
    0 ≤ (tick now s).remaining_secs ∧
      (tick now s).remaining_secs ≤ s.remaining_secs := by
  unfold tick
  split
  · exact ⟨h, le_refl _⟩
  · split
    · exact ⟨h, le_refl _⟩
    · dsimp only
      split
      · exact ⟨h, le_refl _⟩
      · split
        · rw [on_phase_finished_remaining_secs]
          exact ⟨le_refl _, h⟩
        · exact ⟨by dsimp only; omega, by dsimp only; omega⟩

end PomodoroState

lemma tickSeq_append (s : PomodoroState) (a b : List Int) :
    tickSeq s (a ++ b) = tickSeq (tickSeq s a) b :=
  List.foldl_append _ _ _ _

lemma tickSeq_bounds (ts : List Int) :
    ∀ s : PomodoroState, 0 ≤ s.remaining_secs →
      0 ≤ (tickSeq s ts).remaining_secs ∧
        (tickSeq s ts).remaining_secs ≤ s.remaining_secs := by
  induction ts with
  | nil => exact fun s h => ⟨h, le_refl _⟩
  | cons t ts ih =>
      intro s h
      have h1 := PomodoroState.tick_remaining_bounds s t h
      have h2 := ih (PomodoroState.tick t s) h1.1
      exact ⟨h2.1, le_trans h2.2 h1.2⟩

lemma on_phase_finished_last_completed_of_ne (s : PomodoroState)
    (h : s.phase ≠ Phase.Focus) :
    (PomodoroState.on_phase_finished s).last_completed_focus_duration_secs =
      s.last_completed_focus_duration_secs := by
  rw [PomodoroState.on_phase_finished_break s h]

lemma tick_last_completed_frame (s : PomodoroState) (now : Int)
    (h : s.phase ≠ Phase.Focus) :
    (PomodoroState.tick now s).last_completed_focus_duration_secs =
      s.last_completed_focus_duration_secs := by
  unfold PomodoroState.tick
  split
  · rfl
  · split
    · rfl
    · dsimp only
      split
      · rfl
      · split
        · exact on_phase_finished_last_completed_of_ne _ h
        · rfl

lemma on_phase_finished_counter (s : PomodoroState)
    (hcfg : 1 ≤ s.config.pomodoros_before_long) (h : counter_inv s) :
    counter_inv (PomodoroState.on_phase_finished s) := by
  by_cases hp : s.phase = Phase.Focus
  · rw [PomodoroState.on_phase_finished_focus s hp]
    unfold counter_inv at *
    split
    · exact hcfg
    · rename_i hlt
      simp only
      omega
  · rw [PomodoroState.on_phase_finished_break s hp]
    exact h

lemma tick_counter (s : PomodoroState) (now : Int)
    (hcfg : 1 ≤ s.config.pomodoros_before_long) (h : counter_inv s) :
    counter_inv (PomodoroState.tick now s) := by
  unfold PomodoroState.tick
  split
  · exact h
  · split
    · exact h
    · dsimp only
      split
      · exact h
      · split
        · exact on_phase_finished_counter _ hcfg h
        · exact h

/-- C1: with `state = Running` and `last_tick_at = some last`, `tick now`
is a no-op when the whole-second difference `now - last` is non-positive;
otherwise it re-stamps `last_tick_at = some now` and sets
`remaining_secs` to `max 0 (remaining_secs - elapsed)`, running the
completion algorithm exactly when that new value is 0.  Consequently,
along any non-decreasing sequence of timestamps fed to `tick`,
`remaining_secs` is non-increasing and never negative (from any state of
the data model, where `remaining_secs ≥ 0`). -/
theorem C1_tick_elapsed_semantics (s : PomodoroState) (last now : Int)
    (hrun : s.state = TimerState.Running)
    (hlast : s.last_tick_at = some last) :
    (now - last ≤ 0 → PomodoroState.tick now s = s) ∧
    (0 < now - last → now - last < s.remaining_secs →
      PomodoroState.tick now s =
        { s with last_tick_at := some now,
                 remaining_secs := s.remaining_secs - (now - last) }) ∧
    (0 < now - last → s.remaining_secs ≤ now - last →
      PomodoroState.tick now s =
        PomodoroState.on_phase_finished
          { s with last_tick_at := some now, remaining_secs := 0 }) ∧
    (∀ ts : List Int, ts.Pairwise (· ≤ ·) → 0 ≤ s.remaining_secs →
      ∀ i j : Nat, i ≤ j →
        0 ≤ (tickSeq s (ts.take j)).remaining_secs ∧
          (tickSeq s (ts.take j)).remaining_secs ≤
            (tickSeq s (ts.take i)).remaining_secs) := by
  refine ⟨fun h => PomodoroState.tick_nonpos s last now hlast h,
    fun h1 h2 => PomodoroState.tick_progress s last now hrun hlast h1 h2,
    fun h1 h2 => PomodoroState.tick_complete s last now hrun hlast h1 h2,
    fun ts _ hrem i j hij => ?_⟩
  refine ⟨(tickSeq_bounds (ts.take j) s hrem).1, ?_⟩
  have hsplit : ts.take j = ts.take i ++ (ts.drop i).take (j - i) := by
    have hj : j = i + (j - i) := by omega
    conv_lhs => rw [hj]
    rw [List.take_add]
  rw [hsplit, tickSeq_append]
  exact (tickSeq_bounds _ _ (tickSeq_bounds (ts.take i) s hrem).1).2

/-- Witness for C1 at a concrete input: one second of a fresh default
focus countdown. -/
theorem C1_tick_elapsed_semantics_witness :
    PomodoroState.tick 1 (PomodoroState.start 0 PomodoroState.default) =
      { PomodoroState.start 0 PomodoroState.default with
        last_tick_at := some 1,
        remaining_secs :=
          (PomodoroState.start 0 PomodoroState.default).remaining_secs - (1 - 0) } :=
  (C1_tick_elapsed_semantics (PomodoroState.start 0 PomodoroState.default) 0 1
    rfl rfl).2.1 (by decide) (by decide)

/-- C2: the completion algorithm increments the counter on a finished
focus phase, moving to `LongBreak` and resetting the counter exactly when
the new count reaches `pomodoros_before_long`, else to `ShortBreak`; a
finished break always moves to `Focus`.  With the default configuration
(`pomodoros_before_long = 4`), starting from `Focus` with a zero counter,
seven phase completions visit the phases
Focus, ShortBreak, Focus, ShortBreak, Focus, ShortBreak, Focus, LongBreak,
and the counter is 0 upon entering `LongBreak`. -/
theorem C2_completion_transitions :
    (∀ s : PomodoroState,
      (s.phase = Phase.Focus →
        (s.config.pomodoros_before_long ≤ s.completed_pomodoros + 1 →
          (PomodoroState.on_phase_finished s).phase = Phase.LongBreak ∧
            (PomodoroState.on_phase_finished s).completed_pomodoros = 0) ∧
        (s.completed_pomodoros + 1 < s.config.pomodoros_before_long →
          (PomodoroState.on_phase_finished s).phase = Phase.ShortBreak ∧
            (PomodoroState.on_phase_finished s).completed_pomodoros =
              s.completed_pomodoros + 1)) ∧
      ((s.phase = Phase.ShortBreak ∨ s.phase = Phase.LongBreak) →
        (PomodoroState.on_phase_finished s).phase = Phase.Focus)) ∧
    PomodoroState.default.config.pomodoros_before_long = 4 ∧
    PomodoroState.default.phase = Phase.Focus ∧
    PomodoroState.default.completed_pomodoros = 0 ∧
    (List.range 8).map (fun n => (cycleStates n).phase) =
      [Phase.Focus, Phase.ShortBreak, Phase.Focus, Phase.ShortBreak,
       Phase.Focus, Phase.ShortBreak, Phase.Focus, Phase.LongBreak] ∧
    (cycleStates 7).completed_pomodoros = 0 := by
  refine ⟨fun s => ⟨fun hF => ⟨fun hge => ?_, fun hlt => ?_⟩, fun hB => ?_⟩,
    rfl, rfl, rfl, by decide, by decide⟩
  · rw [PomodoroState.on_phase_finished_focus s hF, if_pos hge]
    exact ⟨rfl, rfl⟩
  · rw [PomodoroState.on_phase_finished_focus s hF, if_neg (by omega)]
    exact ⟨rfl, rfl⟩
  · have h : s.phase ≠ Phase.Focus := by
      rcases hB with h | h <;> simp [h]
    rw [PomodoroState.on_phase_finished_break s h]

/-- Witness for C2 at a concrete input: completing the first default
focus phase moves to `ShortBreak` with counter 1. -/
theorem C2_completion_transitions_witness :
    (PomodoroState.on_phase_finished
        (PomodoroState.start 0 PomodoroState.default)).phase = Phase.ShortBreak ∧
    (PomodoroState.on_phase_finished
        (PomodoroState.start 0 PomodoroState.default)).completed_pomodoros =
      (PomodoroState.start 0 PomodoroState.default).completed_pomodoros + 1 :=
  ((C2_completion_transitions.1 (PomodoroState.start 0 PomodoroState.default)).1
    rfl).2 (by decide)

/-- C5: when a running countdown reaches 0 through `tick`, the first
`take_finished_phase` returns the phase that just ended, a second take
before another completion returns `none`, and the completion forces the
engine to `Idle`. -/
theorem C5_at_most_once_delivery (s : PomodoroState) (last now : Int)
    (hrun : s.state = TimerState.Running)
    (hlast : s.last_tick_at = some last)
    (hpos : 0 < s.remaining_secs)
    (helap : 0 < now - last)
    (hreach : s.remaining_secs ≤ now - last) :
    (PomodoroState.take_finished_phase (PomodoroState.tick now s)).1 =
      some s.phase ∧
    (PomodoroState.take_finished_phase
        (PomodoroState.take_finished_phase (PomodoroState.tick now s)).2).1 =
      none ∧
    (PomodoroState.tick now s).state = TimerState.Idle := by
  rw [PomodoroState.tick_complete s last now hrun hlast helap hreach]
  exact ⟨by simp [PomodoroState.take_finished_phase,
      PomodoroState.on_phase_finished_finished_phase],
    by simp [PomodoroState.take_finished_phase],
    PomodoroState.on_phase_finished_state _⟩

/-- Witness for C5 at a concrete input: a default focus phase ticked to
its end. -/
theorem C5_at_most_once_delivery_witness :
    (PomodoroState.take_finished_phase
        (PomodoroState.tick 1500 (PomodoroState.start 0 PomodoroState.default))).1 =
      some (PomodoroState.start 0 PomodoroState.default).phase ∧
    (PomodoroState.take_finished_phase
        (PomodoroState.take_finished_phase
          (PomodoroState.tick 1500
            (PomodoroState.start 0 PomodoroState.default))).2).1 = none ∧
    (PomodoroState.tick 1500
        (PomodoroState.start 0 PomodoroState.default)).state = TimerState.Idle :=
  C5_at_most_once_delivery (PomodoroState.start 0 PomodoroState.default) 0 1500
    rfl rfl (by decide) (by decide) (by decide)

/-- C9: the completion algorithm writes the focus-duration mailbox only
when the ended phase is `Focus`; every other engine operation leaves it
unchanged (none ever clears it), so an undrained value staged earlier
survives break completions and is returned by the next take. -/
theorem C9_focus_mailbox_frame (s : PomodoroState) :
    (s.phase ≠ Phase.Focus →
      (PomodoroState.on_phase_finished s).last_completed_focus_duration_secs =
        s.last_completed_focus_duration_secs) ∧
    (∀ clk, (PomodoroState.start clk s).last_completed_focus_duration_secs =
      s.last_completed_focus_duration_secs) ∧
    (∀ clk, (PomodoroState.toggle_pause clk s).last_completed_focus_duration_secs =
      s.last_completed_focus_duration_secs) ∧
    (PomodoroState.stop s).last_completed_focus_duration_secs =
      s.last_completed_focus_duration_secs ∧
    (PomodoroState.reset_pomodoros_and_stop s).last_completed_focus_duration_secs =
      s.last_completed_focus_duration_secs ∧
    (∀ p, (PomodoroState.set_phase p s).last_completed_focus_duration_secs =
      s.last_completed_focus_duration_secs) ∧
    (s.phase ≠ Phase.Focus → ∀ now,
      (PomodoroState.tick now s).last_completed_focus_duration_secs =
        s.last_completed_focus_duration_secs) ∧
    (∀ v, s.last_completed_focus_duration_secs = some v →
      s.phase ≠ Phase.Focus → ∀ now,
        (PomodoroState.take_last_completed_focus_duration
          (PomodoroState.tick now s)).1 = some v) := by
  refine ⟨fun h => by rw [PomodoroState.on_phase_finished_break s h],
    fun clk => rfl,
    fun clk => ?_,
    rfl, rfl, fun p => rfl,
    fun h now => tick_last_completed_frame s now h,
    fun v hv h now => ?_⟩
  · unfold PomodoroState.toggle_pause
    split <;> rfl
  · show (PomodoroState.tick now s).last_completed_focus_duration_secs = some v
    rw [tick_last_completed_frame s now h, hv]

/-- Witness for C9 at a concrete input: a short-break state holding an
undrained focus duration of 1500 seconds. -/
theorem C9_focus_mailbox_frame_witness :
    (PomodoroState.take_last_completed_focus_duration
      (PomodoroState.tick 300
        (PomodoroState.start 0
          (PomodoroState.tick 1500
            (PomodoroState.start 0 PomodoroState.default))))).1 = some 1500 :=
  (C9_focus_mailbox_frame _).2.2.2.2.2.2.2 1500 (by decide) (by decide) 300

/-- C10: assuming `pomodoros_before_long ≥ 1`, every engine operation
preserves `completed_pomodoros < pomodoros_before_long`, and the default
state starts the counter at 0. -/
theorem C10_counter_invariant (s : PomodoroState)
    (hcfg : 1 ≤ s.config.pomodoros_before_long) (hinv : counter_inv s) :
    PomodoroState.default.completed_pomodoros = 0 ∧
    counter_inv PomodoroState.default ∧
    (∀ clk, counter_inv (PomodoroState.start clk s)) ∧
    (∀ clk, counter_inv (PomodoroState.toggle_pause clk s)) ∧
    counter_inv (PomodoroState.stop s) ∧
    counter_inv (PomodoroState.reset_pomodoros_and_stop s) ∧
    (∀ p, counter_inv (PomodoroState.set_phase p s)) ∧
    (∀ now, counter_inv (PomodoroState.tick now s)) := by
  refine ⟨rfl, by unfold counter_inv; decide,
    fun clk => hinv,
    fun clk => ?_,
    hinv, ?_, fun p => hinv,
    fun now => tick_counter s now hcfg hinv⟩
  · unfold PomodoroState.toggle_pause
    split <;> exact hinv
  · unfold counter_inv PomodoroState.reset_pomodoros_and_stop PomodoroState.stop
    simpa using hcfg

/-- Witness for C10 at a concrete input: the default state under a tick. -/
theorem C10_counter_invariant_witness :
    counter_inv (PomodoroState.tick 5 PomodoroState.default) :=
  (C10_counter_invariant PomodoroState.default (by decide)
    (by unfold counter_inv; decide)).2.2.2.2.2.2.2 5

lemma pause_resume_tail (X : PomodoroState) (cp t c1 d2 : Int)
    (hrun : X.state = TimerState.Running) (hd2 : 0 ≤ d2)
    (hpos : 0 < X.remaining_secs) :
    (PomodoroState.tick (c1 + d2)
      (PomodoroState.toggle_pause c1
        (PomodoroState.tick t
          (PomodoroState.toggle_pause cp X)))).remaining_secs =
      max (X.remaining_secs - d2) 0 := by
  have hp : PomodoroState.toggle_pause cp X =
      { X with state := TimerState.Paused, last_tick_at := none } := by
    simp [PomodoroState.toggle_pause, hrun]
  have ht : PomodoroState.tick t (PomodoroState.toggle_pause cp X) =
      { X with state := TimerState.Paused, last_tick_at := none } := by
    rw [hp]
    exact PomodoroState.tick_not_running _ t (by simp)
  have hr : PomodoroState.toggle_pause c1
      ({ X with state := TimerState.Paused, last_tick_at := none }) =
      { X with state := TimerState.Running, last_tick_at := some c1 } := by
    simp [PomodoroState.toggle_pause]
  rw [ht, hr]
  rcases lt_or_eq_of_le hd2 with hd2p | hd2z
  · rcases lt_or_le d2 X.remaining_secs with hlt | hge
    · rw [PomodoroState.tick_progress _ c1 (c1 + d2) rfl rfl (by omega) (by simpa using hlt)]
      simp only
      omega
    · rw [PomodoroState.tick_complete _ c1 (c1 + d2) rfl rfl (by omega) (by simpa using hge)]
      rw [PomodoroState.on_phase_finished_remaining_secs]
      omega
  · rw [PomodoroState.tick_nonpos _ c1 (c1 + d2) rfl (by omega)]
    simp only
    omega

/-- C3 counterexample: with the default configuration (`D = 1500`),
`d1 = 1` and `d2 = 1500`, the final `remaining_seconds` is 0 (the
countdown clamps and completes), not `D - d1 - d2 = -1` as the claim's
unrestricted quantification over `d2` demands. -/
theorem C3_pause_resume_counterexample :
    (PomodoroState.tick (0 + 1500)
      (PomodoroState.toggle_pause 0
        (PomodoroState.tick 2000
          (PomodoroState.toggle_pause 0
            (PomodoroState.tick (0 + 1)
              (PomodoroState.start 0 PomodoroState.default)))))).remaining_secs ≠
      PomodoroState.default.config.focus_secs - 1 - 1500 := by
  decide

/-- C3 amended: paused time is never counted.  Starting a focus phase of
duration `D`, ticking forward by `d1 < D`, pausing, ticking by an
arbitrary amount while paused, resuming, then ticking forward by `d2`
leaves `remaining_seconds = max 0 (D - d1 - d2)`; in particular it equals
`D - d1 - d2` whenever `d1 + d2 ≤ D` (when `d1 + d2` exceeds `D` the
countdown clamps at 0 and the phase completes). -/
theorem C3_pause_resume_amended (s : PomodoroState) (D d1 d2 c0 cp t c1 : Int)
    (hphase : s.phase = Phase.Focus) (hD : s.config.focus_secs = D)
    (hd1 : 0 ≤ d1) (hd1D : d1 < D) (hd2 : 0 ≤ d2) :
    (PomodoroState.tick (c1 + d2)
      (PomodoroState.toggle_pause c1
        (PomodoroState.tick t
          (PomodoroState.toggle_pause cp
            (PomodoroState.tick (c0 + d1)
              (PomodoroState.start c0 s)))))).remaining_secs =
      max (D - d1 - d2) 0 ∧
    (d1 + d2 ≤ D →
      (PomodoroState.tick (c1 + d2)
        (PomodoroState.toggle_pause c1
          (PomodoroState.tick t
            (PomodoroState.toggle_pause cp
              (PomodoroState.tick (c0 + d1)
                (PomodoroState.start c0 s)))))).remaining_secs = D - d1 - d2) := by
  have h1 : PomodoroState.start c0 s =
      { s with phase_total_secs := D, remaining_secs := D,
               state := TimerState.Running, last_tick_at := some c0 } := by
    simp [PomodoroState.start, hphase, hD]
  have hmain :
      (PomodoroState.tick (c1 + d2)
        (PomodoroState.toggle_pause c1
          (PomodoroState.tick t
            (PomodoroState.toggle_pause cp
              (PomodoroState.tick (c0 + d1)
                (PomodoroState.start c0 s)))))).remaining_secs =
        max (D - d1 - d2) 0 := by
    rcases lt_or_eq_of_le hd1 with hd1p | hd1z
    · have h2 : PomodoroState.tick (c0 + d1) (PomodoroState.start c0 s) =
          { s with phase_total_secs := D,
                   remaining_secs := D - d1,
                   state := TimerState.Running,
                   last_tick_at := some (c0 + d1) } := by
        rw [h1, PomodoroState.tick_progress _ c0 (c0 + d1) rfl rfl
          (by omega) (by show c0 + d1 - c0 < D; omega)]
        have harith : c0 + d1 - c0 = d1 := by omega
        rw [harith]
      rw [h2, pause_resume_tail _ cp t c1 d2 rfl hd2
        (by show (0 : Int) < D - d1; omega)]
    · have h2 : PomodoroState.tick (c0 + d1) (PomodoroState.start c0 s) =
          PomodoroState.start c0 s := by
        rw [h1]
        exact PomodoroState.tick_nonpos _ c0 (c0 + d1) rfl (by omega)
      rw [h2, h1, pause_resume_tail _ cp t c1 d2 rfl hd2
        (by show (0 : Int) < D; omega)]
      show max (D - d2) 0 = max (D - d1 - d2) 0
      omega
  exact ⟨hmain, fun hle => by rw [hmain]; omega⟩

/-- Witness for the amended C3 at a concrete input: `D = 1500`, `d1 = 2`,
`d2 = 3`, with an arbitrary paused-period tick at timestamp 999. -/
theorem C3_pause_resume_amended_witness :
    (PomodoroState.tick (50 + 3)
      (PomodoroState.toggle_pause 50
        (PomodoroState.tick 999
          (PomodoroState.toggle_pause 0
            (PomodoroState.tick (10 + 2)
              (PomodoroState.start 10 PomodoroState.default)))))).remaining_secs =
      max (1500 - 2 - 3) 0 :=
  (C3_pause_resume_amended PomodoroState.default 1500 2 3 10 0 999 50
    rfl rfl (by decide) (by decide) (by decide)).1

/-- C4 counterexample: after a completed focus phase (default config,
ticked to its end) BOTH mailbox fields are populated at once, refuting
the claim that at most one of them is. -/
theorem C4_mailbox_counterexample :
    ((PomodoroState.tick 1500
        (PomodoroState.start 0 PomodoroState.default)).finished_phase).isSome = true ∧
    ((PomodoroState.tick 1500
        (PomodoroState.start 0
          PomodoroState.default)).last_completed_focus_duration_secs).isSome = true := by
  decide

/-- C4 amended: a completed focus phase stages BOTH mailboxes —
`finished_phase` with `Focus` and the focus-duration mailbox with the
phase's total duration; each mailbox holds at most one staged value per
completion and is drained independently: a take returns the staged value
once, a repeated take before another completion returns `none`, and
taking one mailbox leaves the other untouched. -/
theorem C4_mailbox_independent_drains (s : PomodoroState)
    (h : s.phase = Phase.Focus) :
    (PomodoroState.on_phase_finished s).finished_phase = some Phase.Focus ∧
    (PomodoroState.on_phase_finished s).last_completed_focus_duration_secs =
      some s.phase_total_secs ∧
    (PomodoroState.take_finished_phase (PomodoroState.on_phase_finished s)).1 =
      some Phase.Focus ∧
    (PomodoroState.take_finished_phase
      (PomodoroState.take_finished_phase
        (PomodoroState.on_phase_finished s)).2).1 = none ∧
    (PomodoroState.take_last_completed_focus_duration
      (PomodoroState.on_phase_finished s)).1 = some s.phase_total_secs ∧
    (PomodoroState.take_last_completed_focus_duration
      (PomodoroState.take_last_completed_focus_duration
        (PomodoroState.on_phase_finished s)).2).1 = none ∧
    (PomodoroState.take_finished_phase
        (PomodoroState.on_phase_finished s)).2.last_completed_focus_duration_secs =
      (PomodoroState.on_phase_finished s).last_completed_focus_duration_secs ∧
    (PomodoroState.take_last_completed_focus_duration
        (PomodoroState.on_phase_finished s)).2.finished_phase =
      (PomodoroState.on_phase_finished s).finished_phase := by
  rw [PomodoroState.on_phase_finished_focus s h]
  split <;> exact ⟨rfl, rfl, rfl, rfl, rfl, rfl, rfl, rfl⟩

/-- Witness for the amended C4 at a concrete input: the first default
focus completion. -/
theorem C4_mailbox_independent_drains_witness :
    (PomodoroState.take_finished_phase
      (PomodoroState.on_phase_finished
        (PomodoroState.start 0 PomodoroState.default))).1 = some Phase.Focus :=
  (C4_mailbox_independent_drains
    (PomodoroState.start 0 PomodoroState.default) rfl).2.2.1

/-- C7 counterexample: two runs of the same operation sequence with the
same caller-supplied timestamps (a single `start`) end with different
engine fields when the engine's internal `Utc::now()` samples differ —
`start` stamps `last_tick_at` from a clock read inside the engine. -/
theorem C7_clock_counterexample :
    sameSupplied (Op.start 0) (Op.start 1) = true ∧
    run PomodoroState.default [Op.start 0] ≠
      run PomodoroState.default [Op.start 1] := by
  decide

/-- C7 amended: `tick` never samples a clock — any two operation
sequences that agree on everything the caller supplies and contain no
clock-sampling operation (`start` or `toggle_pause`) run to equal states
— but `start`, and `toggle_pause` when resuming from `Paused`, stamp
`last_tick_at` with the engine's internally sampled `Utc::now()` value. -/
theorem C7_clock_amended :
    (∀ (s : PomodoroState) (ops1 ops2 : List Op),
      List.Forall₂ (fun a b => sameSupplied a b = true) ops1 ops2 →
      (∀ op ∈ ops1, usesAmbientClock op = false) →
      run s ops1 = run s ops2) ∧
    (∀ (clk : Int) (s : PomodoroState),
      (PomodoroState.start clk s).last_tick_at = some clk ∧
      (s.state = TimerState.Paused →
        (PomodoroState.toggle_pause clk s).last_tick_at = some clk)) := by
  constructor
  · have hops : ∀ (ops1 ops2 : List Op),
        List.Forall₂ (fun a b => sameSupplied a b = true) ops1 ops2 →
        (∀ op ∈ ops1, usesAmbientClock op = false) → ops1 = ops2 := by
      intro ops1 ops2 hf
      induction hf with
      | nil => exact fun _ => rfl
      | @cons a b l1 l2 hab htail ih =>
          intro hamb
          have ha : usesAmbientClock a = false := hamb a (by simp)
          have hl : l1 = l2 := ih (fun op hop => hamb op (by simp [hop]))
          subst hl
          have hab2 : a = b := by
            clear htail hamb ih
            cases a <;> cases b <;> simp_all [sameSupplied, usesAmbientClock]
          rw [hab2]
    intro s ops1 ops2 hf hamb
    rw [hops ops1 ops2 hf hamb]
  · intro clk s
    refine ⟨rfl, fun h => ?_⟩
    simp [PomodoroState.toggle_pause, h]

/-- Witness for the amended C7 at a concrete input. -/
theorem C7_clock_amended_witness :
    run PomodoroState.default [Op.tick 5] = run PomodoroState.default [Op.tick 5] ∧
    (PomodoroState.start 3 PomodoroState.default).last_tick_at = some 3 :=
  ⟨C7_clock_amended.1 PomodoroState.default [Op.tick 5] [Op.tick 5]
      (List.Forall₂.cons (by decide) List.Forall₂.nil) (by decide),
    (C7_clock_amended.2 3 PomodoroState.default).1⟩

lemma byTimeAsc_trans : ∀ a b c : FocusRecord,
    byTimeAsc a b = true → byTimeAsc b c = true → byTimeAsc a c = true := by
  intro a b c h1 h2
  simp only [byTimeAsc, decide_eq_true_eq] at *
  exact le_trans h1 h2

lemma byTimeAsc_total : ∀ a b : FocusRecord,
    (byTimeAsc a b || byTimeAsc b a) = true := by
  intro a b
  simp only [byTimeAsc, Bool.or_eq_true, decide_eq_true_eq]
  exact le_total a.completed_at b.completed_at

lemma byTimeDesc_trans : ∀ a b c : FocusRecord × Nat,
    byTimeDesc a b = true → byTimeDesc b c = true → byTimeDesc a c = true := by
  intro a b c h1 h2
  simp only [byTimeDesc, decide_eq_true_eq] at *
  exact le_trans h2 h1

lemma byTimeDesc_total : ∀ a b : FocusRecord × Nat,
    (byTimeDesc a b || byTimeDesc b a) = true := by
  intro a b
  simp only [byTimeDesc, Bool.or_eq_true, decide_eq_true_eq]
  exact le_total b.1.completed_at a.1.completed_at

lemma rowTimeDesc_trans : ∀ a b c : FocusRow,
    rowTimeDesc a b = true → rowTimeDesc b c = true → rowTimeDesc a c = true := by
  intro a b c h1 h2
  simp only [rowTimeDesc, decide_eq_true_eq] at *
  exact le_trans h2 h1

lemma rowTimeDesc_total : ∀ a b : FocusRow,
    (rowTimeDesc a b || rowTimeDesc b a) = true := by
  intro a b
  simp only [rowTimeDesc, Bool.or_eq_true, decide_eq_true_eq]
  exact le_total b.completed_at a.completed_at

lemma cumulative_pass_getElem :
    ∀ (l : List FocusRecord) (sums : String → Nat) (i : Nat) (r : FocusRecord),
      l[i]? = some r →
      (cumulative_pass l sums)[i]? =
        some (r, sums r.task + task_contrib_sum (l.take (i + 1)) r.task) := by
  intro l
  induction l with
  | nil => intro sums i r h; simp at h
  | cons a tl ih =>
      intro sums i r h
      cases i with
      | zero =>
          simp at h
          subst h
          simp [cumulative_pass, task_contrib_sum]
      | succ n =>
          simp only [List.getElem?_cons_succ] at h
          have htl := ih
            (fun u => if u = a.task then sums a.task + tomato_add a else sums u) n r h
          simp only [cumulative_pass, List.getElem?_cons_succ]
          rw [htl, List.take_succ_cons]
          by_cases hT : r.task = a.task
          · simp [task_contrib_sum, hT]
            omega
          · have hT2 : ¬ (a.task = r.task) := fun hh => hT hh.symm
            simp [task_contrib_sum, hT, hT2]

/-- C6: the cumulative-per-task view.  The result is a permutation of the
ascending pass run over the `completed_at`-ascending sort of the history
(each record keeping the value assigned there), ordered `completed_at`
descending; the ascending pass assigns each record the running per-task
sum in which every record contributes `max 1 completed_pomodoros`
(grouping is by exact task string); and on three records of task "A" with
counts 1,1,1 at times t1 < t2 < t3, the record at t3 carries cumulative 3. -/
theorem C6_cumulative_view (history : List FocusRecord) :
    (focus_rows_sorted_with_cumulative_tomatoes history).Perm
      (cumulative_pass (history.mergeSort byTimeAsc) (fun _ => 0)) ∧
    List.Pairwise (fun a b => byTimeDesc a b = true)
      (focus_rows_sorted_with_cumulative_tomatoes history) ∧
    (history.mergeSort byTimeAsc).Perm history ∧
    List.Pairwise (fun a b => byTimeAsc a b = true)
      (history.mergeSort byTimeAsc) ∧
    (∀ (l : List FocusRecord) (sums : String → Nat) (i : Nat) (r : FocusRecord),
      l[i]? = some r →
      (cumulative_pass l sums)[i]? =
        some (r, sums r.task + task_contrib_sum (l.take (i + 1)) r.task)) ∧
    (∀ r : FocusRecord, tomato_add r = max 1 r.completed_pomodoros) ∧
    focus_rows_sorted_with_cumulative_tomatoes
      [⟨"A", 60, "t2", 1⟩, ⟨"A", 60, "t1", 1⟩, ⟨"A", 60, "t3", 1⟩] =
      [(⟨"A", 60, "t3", 1⟩, 3), (⟨"A", 60, "t2", 1⟩, 2), (⟨"A", 60, "t1", 1⟩, 1)] := by
  refine ⟨?_, ?_, List.mergeSort_perm history byTimeAsc,
    List.sorted_mergeSort byTimeAsc_trans byTimeAsc_total history,
    cumulative_pass_getElem, fun r => ?_, ?_⟩
  · simp only [focus_rows_sorted_with_cumulative_tomatoes]
    exact List.mergeSort_perm _ byTimeDesc
  · simp only [focus_rows_sorted_with_cumulative_tomatoes]
    exact List.sorted_mergeSort byTimeDesc_trans byTimeDesc_total _
  · unfold tomato_add
    split <;> omega
  · simp [focus_rows_sorted_with_cumulative_tomatoes, List.mergeSort, List.merge,
      cumulative_pass, byTimeAsc, byTimeDesc, task_contrib_sum, tomato_add,
      show ¬ (['t','2'] ≤ ['t','1']) by decide,
      show (['t','1'] ≤ ['t','2']) by decide,
      show (['t','1'] ≤ ['t','3']) by decide,
      show (['t','2'] ≤ ['t','3']) by decide,
      show ¬ (['t','3'] ≤ ['t','2']) by decide,
      show ¬ (['t','3'] ≤ ['t','1']) by decide]

/-- Witness for C6 at a concrete input: a singleton history, whose only
record receives running sum `0 + max(1, 1)`. -/
theorem C6_cumulative_view_witness :
    (cumulative_pass [⟨"A", 60, "t1", 1⟩] (fun _ => 0))[0]? =
      some ((⟨"A", 60, "t1", 1⟩ : FocusRecord),
        0 + task_contrib_sum ([(⟨"A", 60, "t1", 1⟩ : FocusRecord)].take (0 + 1))
          (FocusRecord.task ⟨"A", 60, "t1", 1⟩)) :=
  (C6_cumulative_view []).2.2.2.2.1 [⟨"A", 60, "t1", 1⟩] (fun _ => 0) 0
    ⟨"A", 60, "t1", 1⟩ rfl

/-- The one-million-row store used to refute C8's "no upper bound" part. -/
def bigStore : List FocusRow :=
  (List.range 1000001).map fun (i : Nat) => ⟨Int.ofNat i, "", 0, "", 0⟩

/-- C8 counterexample: on a store of 1,000,001 rows, `load(0)` returns
only 1,000,000 of them — the implementation substitutes the literal
`1_000_000` for the `limit = 0` sentinel, so it does NOT return all
stored records and DOES enforce an upper bound. -/
theorem C8_load_counterexample :
    (load_focus_records bigStore 0).length ≠ bigStore.length := by
  have h1 : (load_focus_records bigStore 0).length = 1000000 := by
    simp only [load_focus_records, bigStore]
    rw [if_neg (by omega)]
    rw [List.length_take, List.length_mergeSort, List.length_map, List.length_range]
    omega
  have h2 : bigStore.length = 1000001 := by
    simp only [bigStore]
    rw [List.length_map, List.length_range]
  omega

/-- C8 amended: `load` returns rows ordered `completed_at` descending for
every limit; `limit = 0` is mapped to an internal cap of 1,000,000, so it
returns all stored records only when at most 1,000,000 are stored, and in
general returns `min 1000000 (number of rows)` of them; a positive limit
returns `min limit (number of rows)` rows. -/
theorem C8_load_amended (records : List FocusRow) (limit : Nat) :
    List.Pairwise (fun a b => rowTimeDesc a b = true)
      (load_focus_records records limit) ∧
    (limit = 0 → records.length ≤ 1000000 →
      (load_focus_records records limit).Perm records) ∧
    (limit = 0 →
      (load_focus_records records limit).length = min 1000000 records.length) ∧
    (0 < limit →
      (load_focus_records records limit).length = min limit records.length) := by
  refine ⟨?_, ?_, ?_, ?_⟩
  · simp only [load_focus_records]
    exact List.Pairwise.sublist (List.take_sublist _ _)
      (List.sorted_mergeSort rowTimeDesc_trans rowTimeDesc_total records)
  · intro h0 hlen
    subst h0
    simp only [load_focus_records]
    rw [if_neg (by omega)]
    rw [List.take_of_length_le (by rw [List.length_mergeSort]; omega)]
    exact List.mergeSort_perm records rowTimeDesc
  · intro h0
    subst h0
    simp only [load_focus_records]
    rw [if_neg (by omega)]
    rw [List.length_take, List.length_mergeSort]
  · intro hpos
    simp only [load_focus_records]
    rw [if_pos hpos]
    rw [List.length_take, List.length_mergeSort]

/-- Witness for the amended C8 at a concrete input: a one-row store with
`limit = 0` returns exactly that row. -/
theorem C8_load_amended_witness :
    (load_focus_records [⟨1, "", 60, "t", 1⟩] 0).Perm
      ([⟨1, "", 60, "t", 1⟩] : List FocusRow) :=
  (C8_load_amended [⟨1, "", 60, "t", 1⟩] 0).2.1 rfl (by decide)

end RedTomato
